import Mathlib

set_option maxHeartbeats 1000000

/-!
Verification development for `rp2350_pwm_audio.c`: a shallow embedding of the
program's pure computations (PRNG, dither construction, sample quantization,
oscillator recurrence) and of its producer/consumer protocol, with theorems
settling the specification's claims about them.

Machine integers are embedded as `Nat` with explicit `% 2 ^ 64` where the C
code relies on 64-bit wrap-around; `float` arithmetic is idealized as exact
arithmetic over `ℚ` (where the quantities involved are dyadic rationals) or
over `ℝ`/`ℂ` (for the oscillator).
-/

namespace PwmAudio

/-! ### Compile-time constants, from the top of the C file -/

/-- `#define BUFFER_WRAP_BITS 12` (line 21). -/
def BUFFER_WRAP_BITS : ℕ := 12

/-- `#define BYTES_PER_CHUNK 2048` (line 22). -/
def BYTES_PER_CHUNK : ℕ := 2048

/-- `sizeof(uint16_t)` on the target. -/
def sizeof_uint16 : ℕ := 2

/-- `#define SAMPLES_PER_CHUNK (BYTES_PER_CHUNK / sizeof(uint16_t))` (line 24). -/
def SAMPLES_PER_CHUNK : ℕ := BYTES_PER_CHUNK / sizeof_uint16

/-- `sizeof(buffer)` for `static uint16_t buffer[2][SAMPLES_PER_CHUNK]` (line 27). -/
def sizeof_buffer : ℕ := 2 * (SAMPLES_PER_CHUNK * sizeof_uint16)

/-- `#define TOP 1024U` (line 67). -/
def TOP : ℕ := 1024

/-! ### xorshift64star (lines 34-41)

The C function keeps a `static uint64_t x = 1` and on each call performs
`x ^= x >> 12; x ^= x << 25; x ^= x >> 27; return x * 0x2545F4914F6CDD1DULL;`.
We embed the state update and the returned value separately, and the state
sequence from the seed `1`.
-/

/-- `2 ^ 64`, the wrap-around modulus of `uint64_t` arithmetic. -/
def M64 : ℕ := 2 ^ 64

/-- One state update of `xorshift64star`: the three xor-shift steps applied to
the 64-bit state (the left shift wraps modulo `2 ^ 64`). -/
def xorshift64star_update (x : ℕ) : ℕ :=
  let x1 := x ^^^ (x >>> 12)
  let x2 := x1 ^^^ ((x1 <<< 25) % M64)
  x2 ^^^ (x2 >>> 27)

/-- The output multiplier `0x2545F4914F6CDD1DULL` (line 40). -/
def xorshift64star_mult : ℕ := 0x2545F4914F6CDD1D

/-- The value returned by one call of `xorshift64star` whose entry state is
`x`: the updated state times the fixed constant, modulo `2 ^ 64`. -/
def xorshift64star_out (x : ℕ) : ℕ :=
  xorshift64star_update x * xorshift64star_mult % M64

/-- The PRNG state before the `n`-th call, starting from the seed
`static uint64_t x = 1` (line 36). -/
def xorshift_state : ℕ → ℕ
  | 0 => 1
  | n + 1 => xorshift64star_update (xorshift_state n)

/-- The value returned by the `n`-th call of `xorshift64star` (0-indexed). -/
def xorshift_output (n : ℕ) : ℕ :=
  xorshift_state (n + 1) * xorshift64star_mult % M64

/-- Modelled from the spec: the xorshift64star reference recurrence
"x ^= x >> 12; x ^= x << 25; x ^= x >> 27" written with plain arithmetic —
truncated division by a power of two for the right shifts, multiplication
reduced modulo `2 ^ 64` for the left shift. -/
def xorshift64star_ref (x : ℕ) : ℕ :=
  let a := x ^^^ (x / 2 ^ 12)
  let b := a ^^^ (a * 2 ^ 25 % 2 ^ 64)
  b ^^^ (b / 2 ^ 27)

/-! ### frand_minus_frand (lines 43-53)

The C function draws 64 random bits, extracts the 23-bit fields at bit
offsets 41 and 18, builds two floats on `[1.0, 2.0)` by OR-ing each field
into the exponent pattern `0x3F800000`, and returns their difference.
-/

/-- The exact value of a positive normal IEEE-754 single with bit pattern
`u`: `2 ^ e / 2 ^ 127 * (1 + mantissa / 2 ^ 23)` where `e` is the 8-bit
exponent field and `mantissa` the low 23 bits.  (Every pattern used by
`frand_minus_frand` has exponent field 127, hence is a positive normal.) -/
def f32_of_bits (u : ℕ) : ℚ :=
  (2 ^ ((u >>> 23) % 2 ^ 8) : ℚ) / 2 ^ 127 * (1 + ((u % 2 ^ 23 : ℕ) : ℚ) / 2 ^ 23)

/-- Bit pattern of the first generated float (line 48):
`0x3F800000U | ((bits >> 41) & 0x7FFFFFU)`. -/
def frand_x_bits (bits : ℕ) : ℕ := 0x3F800000 ||| ((bits >>> 41) &&& 0x7FFFFF)

/-- Bit pattern of the second generated float (line 49):
`0x3F800000U | ((bits >> 18) & 0x7FFFFFU)`. -/
def frand_y_bits (bits : ℕ) : ℕ := 0x3F800000 ||| ((bits >>> 18) &&& 0x7FFFFF)

/-- The value returned by `frand_minus_frand` for a given 64-bit draw
`bits`: the difference `x.f - y.f` of the two constructed floats (both
exactly representable, as is their difference, so `ℚ` is exact here). -/
def frand_minus_frand (bits : ℕ) : ℚ :=
  f32_of_bits (frand_x_bits bits) - f32_of_bits (frand_y_bits bits)

/-! ### Sample quantization (line 119)

`dst[ival] = ((0.5f + 0.5f * sample) * TOP) + 0.5f + frand_minus_frand();`
The conversion of the float value to `uint16_t` truncates toward zero.
-/

/-- C truncation-toward-zero of a rational to an integer, the semantics of
the float-to-integer conversion in the store on line 119 (for in-range
results this is the stored 16-bit value). -/
def ctruncQ (v : ℚ) : ℤ := if 0 ≤ v then ⌊v⌋ else -⌊-v⌋

/-- The output code stored for a signed sample value `sample` when the
dither draw is `bits` (line 119). -/
def storeCode (sample : ℚ) (bits : ℕ) : ℤ :=
  ctruncQ ((1 / 2 + 1 / 2 * sample) * (TOP : ℚ) + 1 / 2 + frand_minus_frand bits)

/-! ### Oscillator (lines 93-116)

`sample_rate`, `tone_frequency`, `tone_amplitude` and `advance` are the
constants set up before the loop; `carrier` starts at `-1.0` (line 104) and
each inner-loop iteration rotates it by `advance` (line 113) and then
renormalizes it with the first-order Newton correction (line 116).  The
`float` arithmetic is idealized as exact real/complex arithmetic.
-/

/-- `const float sample_rate = 48e6f / TOP;` (line 93). -/
noncomputable def sample_rate : ℝ := 48000000 / TOP

/-- `const float tone_frequency = 900.0f;` (line 96). -/
noncomputable def tone_frequency : ℝ := 900

/-- `const float tone_amplitude = 1.0f;` (line 99). -/
noncomputable def tone_amplitude : ℝ := 1

/-- `const float complex advance = cexpf(I * 2.0f * M_PI * tone_frequency / sample_rate);`
(line 101). -/
noncomputable def advance : ℂ :=
  Complex.exp (Complex.I * ((2 * Real.pi * tone_frequency / sample_rate : ℝ) : ℂ))

/-- `cmagsquaredf` (lines 30-32): squared magnitude of a complex value. -/
noncomputable def cmagsquaredf (x : ℂ) : ℝ := x.re * x.re + x.im * x.im

/-- The renormalization on line 116:
`carrier = carrier * (3.0f - cmagsquaredf(carrier)) / 2.0f;`. -/
noncomputable def renorm_step (c : ℂ) : ℂ := c * (3 - (cmagsquaredf c : ℂ)) / 2

/-- The carrier value at the start of the `n`-th inner-loop iteration,
counted across chunks: `carrier 0 = -1.0` (line 104), and each iteration
multiplies by `advance` (line 113) and renormalizes (line 116). -/
noncomputable def carrier : ℕ → ℂ
  | 0 => -1
  | n + 1 => renorm_step (carrier n * advance)

/-! ### Per-sample loop body (lines 109-119)

One iteration of the inner `for` loop, acting on the pair
(carrier, PRNG state): it reads the sample from the carrier's real part
scaled by `tone_amplitude`, rotates and renormalizes the carrier, makes one
PRNG call whose output feeds `frand_minus_frand`, and produces the stored
output code.
-/

/-- C truncation-toward-zero of a real to an integer, the semantics of the
float-to-`uint16_t` conversion on line 119. -/
noncomputable def ctruncR (v : ℝ) : ℤ := if 0 ≤ v then ⌊v⌋ else -⌊-v⌋

/-- One iteration of the inner sample loop (lines 109-119): from the state
`(carrier, prng)` produce the next state and the stored output code. -/
noncomputable def lineStep (st : ℂ × ℕ) : (ℂ × ℕ) × ℤ :=
  let sample : ℝ := (st.1).re * tone_amplitude
  let c : ℂ := renorm_step (st.1 * advance)
  let r : ℕ := xorshift64star_update st.2
  let bits : ℕ := r * xorshift64star_mult % M64
  ((c, r),
    ctruncR ((1 / 2 + 1 / 2 * sample) * (TOP : ℝ) + 1 / 2 + ((frand_minus_frand bits : ℚ) : ℝ)))

/-- Modelled from the spec: the signed-sample-to-code map
`code = (0.5 + 0.5 * sample) * TOP + 0.5` before truncation, with the
dither to be added to this already-mapped value. -/
noncomputable def mapToCode (s : ℝ) : ℝ := (1 / 2 + 1 / 2 * s) * (TOP : ℝ) + 1 / 2

/-! ### Producer/consumer protocol (lines 107-136)

The `while (1)` loop fills the chunk addressed by `ichunk_filled % 2`; on
the very first iteration it enables the PWM (lines 122-124), on every later
iteration it waits for the DMA completion flag and acknowledges it
(lines 125-133), then increments `ichunk_filled` (line 135).  The model
keeps:
* `fill`: `ichunk_filled`, the number of chunks fully populated;
* `drain`: the number of acknowledged completions (each acknowledgement of
  the polled completion flag is one `drain` increment);
* `hw`: the number of chunk-completion events raised by the transfer
  engine;
* `flag`: the sticky completion bit `dma_hw->intr & (1 << IDMA_PWM)`;
* `armed`: the PWM enable bit in `pwm_hw->slice[...].csr`;
* `armCount`: how many times `pwm_init(..., true)` has been executed;
* `pc`: whether the producer is filling a chunk or waiting on the flag.

Hardware completion events may interleave anywhere; the producer's steps
follow the loop body.  A completion event is allowed at any time (even
spuriously), which only makes the proved invariants stronger.
-/

/-- Producer program counter: inside a fill cycle, or in the wait loop of
lines 127-128. -/
inductive Pc : Type
  | filling : Pc
  | waiting : Pc

/-- State of the producer/consumer protocol. -/
structure ProtoState : Type where
  fill : ℕ
  drain : ℕ
  hw : ℕ
  flag : Bool
  armed : Bool
  armCount : ℕ
  pc : Pc

/-- Initial state: nothing filled, nothing drained, PWM disabled, producer
about to fill chunk 0. -/
def ProtoState.init : ProtoState :=
  { fill := 0, drain := 0, hw := 0, flag := false, armed := false, armCount := 0,
    pc := Pc.filling }

/-- One transition of the protocol. -/
inductive ProtoStep : ProtoState → ProtoState → Prop
  /-- Lines 109-124, first iteration: the fill cycle for chunk 0 completes
  and, the PWM being disabled, `pwm_init(slice_num, &config, true)` runs;
  then `ichunk_filled++`. -/
  | arm (s : ProtoState) (hpc : s.pc = Pc.filling) (hf : s.fill = 0)
      (ha : s.armed = false) :
      ProtoStep s { s with armed := true, armCount := s.armCount + 1, fill := s.fill + 1 }
  /-- Lines 109-125, later iterations: the fill cycle completes and the
  producer enters the wait loop (the `else` branch). -/
  | fillDone (s : ProtoState) (hpc : s.pc = Pc.filling)
      (h : ¬(s.fill = 0 ∧ s.armed = false)) :
      ProtoStep s { s with pc := Pc.waiting }
  /-- Lines 127-135: the completion flag is observed set; the producer
  acknowledges it (one `drain` increment) and `ichunk_filled++`. -/
  | ack (s : ProtoState) (hpc : s.pc = Pc.waiting) (hflag : s.flag = true) :
      ProtoStep s
        { s with flag := false, drain := s.drain + 1, fill := s.fill + 1, pc := Pc.filling }
  /-- The transfer engine finishes draining a chunk: the completion count
  rises and the sticky completion flag is set.  Allowed at any time. -/
  | complete (s : ProtoState) :
      ProtoStep s { s with hw := s.hw + 1, flag := true }

/-- Reachability from the initial state under any interleaving. -/
inductive ProtoReachable : ProtoState → Prop
  | init : ProtoReachable ProtoState.init
  | step {s t : ProtoState} : ProtoReachable s → ProtoStep s t → ProtoReachable t

/-- The inductive invariant of the protocol: before the first chunk is
filled nothing is drained and the PWM is disabled; afterwards the producer
is always exactly one chunk ahead of the acknowledged completions and the
PWM has been enabled exactly once. -/
def ProtoInv (s : ProtoState) : Prop :=
  (s.pc = Pc.filling →
    (s.fill = 0 ∧ s.drain = 0 ∧ s.armed = false ∧ s.armCount = 0) ∨
      (s.fill = s.drain + 1 ∧ s.armed = true ∧ s.armCount = 1)) ∧
  (s.pc = Pc.waiting → s.fill = s.drain + 1 ∧ s.armed = true ∧ s.armCount = 1)

/-! ## Helper lemmas -/

/-- The mantissa mask `0x7FFFFFU` is the low-23-bit mask. -/
theorem mask_eq : (0x7FFFFF : ℕ) = 2 ^ 23 - 1 := by norm_num

/-- Every extracted mantissa field is a 23-bit value. -/
theorem field_lt (bits k : ℕ) : bits >>> k &&& 0x7FFFFF < 2 ^ 23 := by
  have h := Nat.and_le_right (n := bits >>> k) (m := 0x7FFFFF)
  omega

/-- Decoding the float built by OR-ing a 23-bit mantissa `m` into the fixed
exponent pattern `0x3F800000`: its value is `1 + m / 2 ^ 23`. -/
theorem f32_or_decode {m : ℕ} (hm : m < 2 ^ 23) :
    f32_of_bits (0x3F800000 ||| m) = 1 + (m : ℚ) / 2 ^ 23 := by
  have h0 : (0x3F800000 : ℕ) = 2 ^ 23 * 127 := by norm_num
  have h1 : (0x3F800000 : ℕ) ||| m = 2 ^ 23 * 127 + m := by
    rw [h0, ← Nat.mul_add_lt_is_or hm 127]
  rw [h1, f32_of_bits, Nat.shiftRight_eq_div_pow]
  have h2 : (2 ^ 23 * 127 + m) / 2 ^ 23 = 127 := by omega
  have h3 : (2 ^ 23 * 127 + m) % 2 ^ 23 = m := by omega
  rw [h2, h3]
  norm_num

/-- Value of the first constructed float, as a function of its mantissa
field. -/
theorem frand_x_val (bits : ℕ) :
    f32_of_bits (frand_x_bits bits) = 1 + ((bits >>> 41 &&& 0x7FFFFF : ℕ) : ℚ) / 2 ^ 23 := by
  rw [frand_x_bits]; exact f32_or_decode (field_lt bits 41)

/-- Value of the second constructed float, as a function of its mantissa
field. -/
theorem frand_y_val (bits : ℕ) :
    f32_of_bits (frand_y_bits bits) = 1 + ((bits >>> 18 &&& 0x7FFFFF : ℕ) : ℚ) / 2 ^ 23 := by
  rw [frand_y_bits]; exact f32_or_decode (field_lt bits 18)

/-- Both constructed floats lie in `[1, 2)`. -/
theorem frand_val_mem {m : ℕ} (hm : m < 2 ^ 23) :
    1 ≤ 1 + (m : ℚ) / 2 ^ 23 ∧ 1 + (m : ℚ) / 2 ^ 23 < 2 := by
  have h0 : (0 : ℚ) ≤ (m : ℚ) := by positivity
  have h1 : (m : ℚ) < 2 ^ 23 := by exact_mod_cast hm
  constructor
  · nlinarith
  · nlinarith

/-- The dither value lies strictly inside `(-1, 1)`. -/
theorem frand_bounds (bits : ℕ) :
    -1 < frand_minus_frand bits ∧ frand_minus_frand bits < 1 := by
  have hx := frand_val_mem (field_lt bits 41)
  have hy := frand_val_mem (field_lt bits 18)
  rw [frand_minus_frand, frand_x_val, frand_y_val]
  constructor <;> nlinarith [hx.1, hx.2, hy.1, hy.2]

/-- Truncation toward zero maps `(-1, 1026)` into `[0, 1025]`. -/
theorem ctruncQ_code_bounds {v : ℚ} (h0 : -1 < v) (h1 : v < 1026) :
    0 ≤ ctruncQ v ∧ ctruncQ v ≤ 1025 := by
  rw [ctruncQ]
  by_cases h : 0 ≤ v
  · rw [if_pos h]
    refine ⟨Int.le_floor.mpr (by exact_mod_cast h), ?_⟩
    have : ⌊v⌋ < (1026 : ℤ) := Int.floor_lt.mpr (by exact_mod_cast h1)
    omega
  · rw [if_neg h]
    have hv : 0 ≤ -v := by linarith [not_le.mp h]
    have hv1 : -v < 1 := by linarith
    have hz : ⌊-v⌋ = 0 := Int.floor_eq_zero_iff.mpr ⟨hv, hv1⟩
    omega

/-- The source's update written with shifts equals the reference recurrence
written with division and multiplication. -/
theorem update_eq_ref (x : ℕ) : xorshift64star_update x = xorshift64star_ref x := by
  simp only [xorshift64star_update, xorshift64star_ref, M64,
    Nat.shiftRight_eq_div_pow, Nat.shiftLeft_eq]

/-- If a value xor its own right shift by a positive amount is zero, the
value is zero. -/
theorem xor_shiftRight_eq_zero {x k : ℕ} (hk : 0 < k) (h : x ^^^ x >>> k = 0) :
    x = 0 := by
  have hx : x = x >>> k := Nat.xor_eq_zero.mp h
  rw [Nat.shiftRight_eq_div_pow] at hx
  by_contra hne
  have h2 : 1 < 2 ^ k := by
    have : 2 ^ 1 ≤ 2 ^ k := Nat.pow_le_pow_right (by norm_num) hk
    omega
  have := Nat.div_lt_self (Nat.pos_of_ne_zero hne) h2
  omega

/-- The only fixed point of `a ↦ a * 2 ^ 25 % 2 ^ e` is zero. -/
theorem mul_shift_mod_fixpoint : ∀ e a : ℕ, a = a * 2 ^ 25 % 2 ^ e → a = 0 := by
  intro e
  induction e with
  | zero => intro a h; rw [pow_zero, Nat.mod_one] at h; exact h
  | succ e ih =>
    intro a h
    have hdvd : (2 : ℕ) ∣ 2 ^ (e + 1) := ⟨2 ^ e, by ring⟩
    have h2 : a % 2 = 0 := by
      have hc : a % 2 = a * 2 ^ 25 % 2 := by
        conv_lhs => rw [h]
        exact Nat.mod_mod_of_dvd _ hdvd
      have h25 : a * 2 ^ 25 % 2 = 0 := by
        have hsplit : a * 2 ^ 25 = a * 2 ^ 24 * 2 := by ring
        rw [hsplit]
        exact Nat.mul_mod_left _ 2
      exact hc.trans h25
    obtain ⟨c, hc⟩ : ∃ c, a = 2 * c := Nat.dvd_of_mod_eq_zero h2
    have hstep : 2 * c = 2 * (c * 2 ^ 25 % 2 ^ e) := by
      have hpow : (2 : ℕ) ^ (e + 1) = 2 * 2 ^ e := by ring
      calc 2 * c = a * 2 ^ 25 % 2 ^ (e + 1) := by rw [← hc]; exact h
        _ = 2 * (c * 2 ^ 25) % (2 * 2 ^ e) := by rw [hc, hpow, mul_assoc]
        _ = 2 * (c * 2 ^ 25 % 2 ^ e) := Nat.mul_mod_mul_left 2 _ _
    have hc0 : c = 0 :=
      ih c (Nat.eq_of_mul_eq_mul_left (by norm_num) hstep)
    rw [hc, hc0]

/-- The xorshift64star update maps nonzero states to nonzero states. -/
theorem xorshift_update_ne_zero {x : ℕ} (hx : x ≠ 0) : xorshift64star_update x ≠ 0 := by
  intro h0
  simp only [xorshift64star_update] at h0
  set x1 := x ^^^ x >>> 12 with hx1
  set x2 := x1 ^^^ x1 <<< 25 % M64 with hx2
  have h2 : x2 = 0 := xor_shiftRight_eq_zero (k := 27) (by norm_num) h0
  have h1 : x1 = 0 := by
    have hfix : x1 = x1 <<< 25 % M64 := Nat.xor_eq_zero.mp (by rw [← hx2]; exact h2)
    rw [Nat.shiftLeft_eq, M64] at hfix
    exact mul_shift_mod_fixpoint 64 x1 hfix
  exact hx (xor_shiftRight_eq_zero (k := 12) (by norm_num) (by rw [← hx1]; exact h1))

/-- The inductive invariant holds in every reachable protocol state. -/
theorem proto_inv_holds {s : ProtoState} (h : ProtoReachable s) : ProtoInv s := by
  induction h with
  | init => exact ⟨fun _ => Or.inl ⟨rfl, rfl, rfl, rfl⟩, fun hpc => Pc.noConfusion hpc⟩
  | @step s t _ hstep ih =>
    cases hstep with
    | arm hpc hf ha =>
      rcases ih.1 hpc with ⟨_, h2, _, h4⟩ | ⟨_, h2, _⟩
      · refine ⟨fun _ => Or.inr ⟨?_, rfl, ?_⟩, fun hw => ?_⟩
        · show s.fill + 1 = s.drain + 1
          rw [hf, h2]
        · show s.armCount + 1 = 1
          rw [h4]
        · have hw2 : s.pc = Pc.waiting := hw
          rw [hpc] at hw2
          exact Pc.noConfusion hw2
      · rw [h2] at ha; exact Bool.noConfusion ha
    | fillDone hpc hne =>
      rcases ih.1 hpc with ⟨h1, _, h3, _⟩ | ⟨h1, h2, h3⟩
      · exact absurd ⟨h1, h3⟩ hne
      · refine ⟨fun hw => ?_, fun _ => ⟨h1, h2, h3⟩⟩
        have hw2 : Pc.waiting = Pc.filling := hw
        exact Pc.noConfusion hw2
    | ack hpc hflag =>
      obtain ⟨h1, h2, h3⟩ := ih.2 hpc
      refine ⟨fun _ => Or.inr ⟨?_, h2, h3⟩, fun hw => ?_⟩
      · show s.fill + 1 = s.drain + 1 + 1
        rw [h1]
      · have hw2 : Pc.filling = Pc.waiting := hw
        exact Pc.noConfusion hw2
    | complete => exact ih

/-! ## Claim theorems -/

/-- C1: backpressure invariant.  In every reachable state of the
producer/consumer protocol, under any interleaving of producer steps and
hardware chunk-completion events, `drain ≤ fill ≤ drain + 2` holds: the
producer blocks after each fill cycle beyond the first until a completion
is acknowledged, so it never gets more than the buffer count ahead of the
acknowledged completions. -/
theorem backpressure_invariant (s : ProtoState) (h : ProtoReachable s) :
    s.drain ≤ s.fill ∧ s.fill ≤ s.drain + 2 := by
  have hinv := proto_inv_holds h
  cases hpc : s.pc with
  | filling => rcases hinv.1 hpc with ⟨h1, h2, _, _⟩ | ⟨h1, _, _⟩ <;> omega
  | waiting =>
    obtain ⟨h1, _, _⟩ := hinv.2 hpc
    omega

/-- Witness for C1: the invariant instantiated at the initial state. -/
theorem backpressure_invariant_witness :
    ProtoState.init.drain ≤ ProtoState.init.fill ∧
      ProtoState.init.fill ≤ ProtoState.init.drain + 2 :=
  backpressure_invariant ProtoState.init ProtoReachable.init

/-- C3: first-chunk arming.  In every reachable state, `pwm_init` with
enable has run exactly once when the first chunk has been fully populated
(`fill ≥ 1`) and never before; the enable count never exceeds one, so the
channel is never re-enabled on a later iteration. -/
theorem first_chunk_arming (s : ProtoState) (h : ProtoReachable s) :
    (s.armCount = if s.fill = 0 then 0 else 1) ∧ (s.armed = true ↔ 1 ≤ s.fill) := by
  have hinv := proto_inv_holds h
  cases hpc : s.pc with
  | filling =>
    rcases hinv.1 hpc with ⟨h1, _, h3, h4⟩ | ⟨h1, h2, h3⟩
    · rw [h1, h3, h4]; simp
    · rw [h1, h2, h3]; simp
  | waiting =>
    obtain ⟨h1, h2, h3⟩ := hinv.2 hpc
    rw [h1, h2, h3]; simp

/-- Witness for C3: the arming property instantiated at the initial
state. -/
theorem first_chunk_arming_witness :
    (ProtoState.init.armCount = if ProtoState.init.fill = 0 then 0 else 1) ∧
      (ProtoState.init.armed = true ↔ 1 ≤ ProtoState.init.fill) :=
  first_chunk_arming ProtoState.init ProtoReachable.init

/-- C6: for every 64-bit draw, `frand_minus_frand` extracts the two
disjoint 23-bit fields at bit offsets 41 and 18, builds from each a float
in `[1, 2)` by OR-ing the field into the exponent pattern `0x3F800000`,
and returns their difference, which lies strictly inside `(-1, 1)`. -/
theorem frand_minus_frand_spec (bits : ℕ) :
    bits >>> 41 &&& 0x7FFFFF = bits / 2 ^ 41 % 2 ^ 23 ∧
    bits >>> 18 &&& 0x7FFFFF = bits / 2 ^ 18 % 2 ^ 23 ∧
    f32_of_bits (frand_x_bits bits) = 1 + ((bits / 2 ^ 41 % 2 ^ 23 : ℕ) : ℚ) / 2 ^ 23 ∧
    f32_of_bits (frand_y_bits bits) = 1 + ((bits / 2 ^ 18 % 2 ^ 23 : ℕ) : ℚ) / 2 ^ 23 ∧
    1 ≤ f32_of_bits (frand_x_bits bits) ∧ f32_of_bits (frand_x_bits bits) < 2 ∧
    1 ≤ f32_of_bits (frand_y_bits bits) ∧ f32_of_bits (frand_y_bits bits) < 2 ∧
    frand_minus_frand bits =
      f32_of_bits (frand_x_bits bits) - f32_of_bits (frand_y_bits bits) ∧
    -1 < frand_minus_frand bits ∧ frand_minus_frand bits < 1 := by
  have hfx : bits >>> 41 &&& 0x7FFFFF = bits / 2 ^ 41 % 2 ^ 23 := by
    rw [Nat.shiftRight_eq_div_pow, mask_eq, Nat.and_pow_two_sub_one_eq_mod]
  have hfy : bits >>> 18 &&& 0x7FFFFF = bits / 2 ^ 18 % 2 ^ 23 := by
    rw [Nat.shiftRight_eq_div_pow, mask_eq, Nat.and_pow_two_sub_one_eq_mod]
  refine ⟨hfx, hfy, ?_, ?_, ?_, ?_, ?_, ?_, rfl, (frand_bounds bits).1, (frand_bounds bits).2⟩
  · rw [frand_x_val, hfx]; norm_num
  · rw [frand_y_val, hfy]; norm_num
  · rw [frand_x_val]; exact (frand_val_mem (field_lt bits 41)).1
  · rw [frand_x_val]; exact (frand_val_mem (field_lt bits 41)).2
  · rw [frand_y_val]; exact (frand_val_mem (field_lt bits 18)).1
  · rw [frand_y_val]; exact (frand_val_mem (field_lt bits 18)).2

/-- C7: the PRNG is exactly the xorshift64star reference recurrence
(shifts 12, 25, 27 with 64-bit wrap-around, output multiplied by
`0x2545F4914F6CDD1D` modulo `2 ^ 64`), and the output sequence from the
fixed seed `1` is the deterministic function of the step count given by
iterating that recurrence. -/
theorem xorshift64star_matches_reference :
    (∀ x : ℕ, xorshift64star_update x = xorshift64star_ref x) ∧
    (∀ x : ℕ,
      xorshift64star_out x = xorshift64star_ref x * xorshift64star_mult % 2 ^ 64) ∧
    xorshift_state 0 = 1 ∧
    (∀ n : ℕ, xorshift_state (n + 1) = xorshift64star_ref (xorshift_state n)) ∧
    (∀ n : ℕ,
      xorshift_output n =
        xorshift64star_ref (xorshift_state n) * xorshift64star_mult % 2 ^ 64) := by
  refine ⟨update_eq_ref, ?_, rfl, ?_, ?_⟩
  · intro x; rw [xorshift64star_out, update_eq_ref, M64]
  · intro n; rw [xorshift_state, update_eq_ref]
  · intro n; rw [xorshift_output, xorshift_state, update_eq_ref, M64]

/-- C8: for every nonzero 64-bit state, one application of the
xorshift64star update yields a nonzero state; hence starting from the
seed `1`, the PRNG state is nonzero at every step. -/
theorem xorshift_state_nonzero (x n : ℕ) (hx : x ≠ 0) (hlt : x < 2 ^ 64) :
    xorshift64star_update x ≠ 0 ∧ xorshift_state n ≠ 0 := by
  refine ⟨xorshift_update_ne_zero hx, ?_⟩
  induction n with
  | zero => simp [xorshift_state]
  | succ n ih =>
    rw [xorshift_state]
    exact xorshift_update_ne_zero ih

/-- Witness for C8: instantiated at the nonzero state `1` and step 3. -/
theorem xorshift_state_nonzero_witness :
    (1 : ℕ) ≠ 0 ∧ (1 : ℕ) < 2 ^ 64 ∧
      (xorshift64star_update 1 ≠ 0 ∧ xorshift_state 3 ≠ 0) :=
  ⟨by norm_num, by norm_num, xorshift_state_nonzero 1 3 (by norm_num) (by norm_num)⟩

/-- C9: the build-time structural assertion holds: with
`BUFFER_WRAP_BITS = 12` and `BYTES_PER_CHUNK = 2048`, the ring-wrap
granularity `1 << BUFFER_WRAP_BITS` equals `sizeof(buffer)` for the
two-chunk buffer, so the `_Static_assert` on line 28 does not fire. -/
theorem buffer_wrap_static_assert :
    1 <<< BUFFER_WRAP_BITS = sizeof_buffer ∧ sizeof_buffer = 2 * BYTES_PER_CHUNK := by
  constructor <;> rfl

/-- C2 counterexample: with the in-range sample `1` and the dither draw
`0x600000 <<< 41` (whose dither value is `+3/4`), the stored code is
`1025`, which exceeds `TOP = 1024`; so the claimed range `[0, TOP]` fails. -/
theorem storeCode_exceeds_TOP :
    (-1 ≤ (1 : ℚ) ∧ (1 : ℚ) ≤ 1) ∧
    storeCode 1 ((0x600000 : ℕ) <<< 41) = 1025 ∧
    ¬storeCode 1 ((0x600000 : ℕ) <<< 41) ≤ (TOP : ℤ) := by
  have hmx : ((0x600000 : ℕ) <<< 41) >>> 41 &&& 0x7FFFFF = 0x600000 := by
    rw [Nat.shiftLeft_eq, Nat.shiftRight_eq_div_pow, mask_eq, Nat.and_pow_two_sub_one_eq_mod]
  have hmy : ((0x600000 : ℕ) <<< 41) >>> 18 &&& 0x7FFFFF = 0 := by
    rw [Nat.shiftLeft_eq, Nat.shiftRight_eq_div_pow, mask_eq, Nat.and_pow_two_sub_one_eq_mod]
  have hd : frand_minus_frand ((0x600000 : ℕ) <<< 41) = 3 / 4 := by
    rw [frand_minus_frand, frand_x_val, frand_y_val, hmx, hmy]
    norm_num
  have hval : storeCode 1 ((0x600000 : ℕ) <<< 41) = 1025 := by
    rw [storeCode, hd]
    have hT : ((TOP : ℕ) : ℚ) = 1024 := by norm_num [TOP]
    rw [hT]
    have harg : (1 / 2 + 1 / 2 * (1 : ℚ)) * 1024 + 1 / 2 + 3 / 4 = 4101 / 4 := by norm_num
    rw [harg, ctruncQ, if_pos (by norm_num : (0 : ℚ) ≤ 4101 / 4)]
    rw [Int.floor_eq_iff]
    norm_num
  refine ⟨⟨by norm_num, le_refl 1⟩, hval, ?_⟩
  rw [hval]
  norm_num [TOP]

/-- C2 amended: for every signed sample in `[-1, 1]` and every dither
draw, the stored code lies in `[0, TOP + 1]`: the dither can push a
full-scale sample one quantization step above `TOP`, and truncation
toward zero keeps the low side at `0`. -/
theorem storeCode_range_amended (s : ℚ) (bits : ℕ) (hs0 : -1 ≤ s) (hs1 : s ≤ 1) :
    0 ≤ storeCode s bits ∧ storeCode s bits ≤ (TOP : ℤ) + 1 := by
  have hd := frand_bounds bits
  have hT : ((TOP : ℕ) : ℚ) = 1024 := by norm_num [TOP]
  have e1 : (0 : ℚ) ≤ 1 / 2 + 1 / 2 * s := by linarith
  have e2 : (1 / 2 + 1 / 2 * s : ℚ) ≤ 1 := by linarith
  have e3 : (0 : ℚ) ≤ (1 / 2 + 1 / 2 * s) * 1024 := mul_nonneg e1 (by norm_num)
  have e4 : (1 / 2 + 1 / 2 * s : ℚ) * 1024 ≤ 1 * 1024 :=
    mul_le_mul_of_nonneg_right e2 (by norm_num)
  have hb :
      0 ≤ ctruncQ ((1 / 2 + 1 / 2 * s) * ((TOP : ℕ) : ℚ) + 1 / 2 + frand_minus_frand bits) ∧
      ctruncQ ((1 / 2 + 1 / 2 * s) * ((TOP : ℕ) : ℚ) + 1 / 2 + frand_minus_frand bits) ≤
        1025 := by
    apply ctruncQ_code_bounds
    · rw [hT]; linarith [hd.1]
    · rw [hT]; linarith [hd.2]
  rw [storeCode]
  have h1025 : (TOP : ℤ) + 1 = 1025 := by norm_num [TOP]
  rw [h1025]
  exact hb

/-- Witness for C2 amended: instantiated at sample `0` and draw `0`. -/
theorem storeCode_range_amended_witness :
    -1 ≤ (0 : ℚ) ∧ (0 : ℚ) ≤ 1 ∧
      (0 ≤ storeCode 0 0 ∧ storeCode 0 0 ≤ (TOP : ℤ) + 1) :=
  ⟨by norm_num, by norm_num, storeCode_range_amended 0 0 (by norm_num) (by norm_num)⟩

/-- The rotation factor `advance` has unit magnitude. -/
theorem abs_advance : Complex.abs advance = 1 := by
  rw [advance, Complex.abs_exp]
  have h : (Complex.I * ((2 * Real.pi * tone_frequency / sample_rate : ℝ) : ℂ)).re = 0 := by
    simp [Complex.mul_re]
  rw [h, Real.exp_zero]

/-- `cmagsquaredf` computes the complex square norm. -/
theorem cmagsquaredf_eq_normSq (x : ℂ) : cmagsquaredf x = Complex.normSq x := by
  rw [cmagsquaredf, Complex.normSq_apply]

/-- On a unit-magnitude value the Newton renormalization is the identity
(in exact arithmetic). -/
theorem renorm_step_of_unit {c : ℂ} (hc : Complex.abs c = 1) : renorm_step c = c := by
  have hn : cmagsquaredf c = 1 := by
    rw [cmagsquaredf_eq_normSq, ← Complex.sq_abs, hc]; norm_num
  rw [renorm_step, hn]
  push_cast
  ring

/-- The carrier keeps unit magnitude at every step. -/
theorem carrier_abs (n : ℕ) : Complex.abs (carrier n) = 1 := by
  induction n with
  | zero => simp [carrier]
  | succ n ih =>
    have h1 : Complex.abs (carrier n * advance) = 1 := by
      rw [map_mul, ih, abs_advance, one_mul]
    rw [carrier, renorm_step_of_unit h1, h1]

/-- C5: starting from the unit-magnitude rotor `-1.0`, every sample step
rotates by `advance` and then unconditionally applies the first-order
Newton renormalization, and at every step the rotor magnitude is within
`1e-4` of `1` (in the exact-arithmetic idealization of the `float`
computation the magnitude is exactly `1`). -/
theorem carrier_magnitude_stable (n : ℕ) :
    carrier (n + 1) = renorm_step (carrier n * advance) ∧
      |Complex.abs (carrier n) - 1| < 1 / 10000 := by
  refine ⟨by rw [carrier], ?_⟩
  rw [carrier_abs, sub_self, abs_zero]
  norm_num

/-- C4 counterexample: the code's sample-rate constant
(`48e6f / TOP`, line 93) is not `48e6 / (TOP + 1)`. -/
theorem sample_rate_ne_clock_div_top_succ :
    sample_rate ≠ 48000000 / ((TOP : ℝ) + 1) := by
  rw [sample_rate]
  norm_num [TOP]

/-- C4 amended: the constant `sample_rate` from which `advance` is
computed equals `48e6 / TOP = 46875`. -/
theorem sample_rate_eq_clock_div_top : sample_rate = 46875 := by
  rw [sample_rate]
  norm_num [TOP]

/-- C10: in every sample step, the tone-amplitude multiplier is applied to
the rotor's real part before dither is involved, and one dither value —
obtained from exactly one PRNG call — is then added unconditionally to the
already-mapped value just before truncation; there is no dither-off path. -/
theorem line_step_spec (c : ℂ) (r : ℕ) :
    (lineStep (c, r)).2 =
      ctruncR (mapToCode (tone_amplitude * c.re) +
        ((frand_minus_frand (xorshift64star_out r) : ℚ) : ℝ)) ∧
    (lineStep (c, r)).1.2 = xorshift64star_update r ∧
    (lineStep (c, r)).1.1 = renorm_step (c * advance) := by
  refine ⟨?_, rfl, rfl⟩
  simp only [lineStep, mapToCode, xorshift64star_out]
  congr 1
  ring

end PwmAudio
